import Mathlib

/-!
# Verification of the `benchmark_this` revision-snapshot benchmarking orchestrator

Shallow embedding of `src/benchmark_this/benchmark.py` (`Benchmarker.run`,
`Benchmarker.dataframes`) and `src/benchmark_this/collector.py` (`collect`),
with theorems about the orchestrator's caching, failure-handling and
series-assembly behaviour.

Modelling conventions:
* A git commit is identified by its hexsha, a `String`; a benchmark by its
  name (file stem), a `String`.
* The pickle cache directory is a function `Cache : String → String → Option PyVal`:
  `cache c b` is the content of the file `{c}_{b}.pickle`, or `none` when the
  file does not exist.  `pickle.dump` of a Python value is modelled by storing
  the `PyVal` itself (pickling is a deterministic injection, so equality of
  stored `PyVal`s models byte-identical cache files).
* The child process behaviour (what `module.run()` does inside
  `collector.collect`) is an oracle `exec : String → String → ExecOutcome`;
  success of `git worktree add` for a commit is an oracle `snapOk`.
* Observable side effects of the orchestrator (worktree add, subprocess
  spawn, temporary-directory removal, worktree prune) are recorded in an
  event trace.
-/

/-- An opaque picklable Python value: benchmark results are treated as
opaque serializable payloads.  `PyVal.pyNone` models Python `None`, which is
also what the orchestrator pickles as a failure marker. -/
inductive PyVal where
  | pyNone
  | pyInt (n : Int)
  | pyStr (s : String)
  deriving DecidableEq, Repr

/-- The pickle-file cache directory (`__benchmark_data__`): maps a commit
hexsha and a benchmark name to the stored payload, when the cache file
`{commit}_{benchmark}.pickle` exists. -/
def Cache : Type := String → String → Option PyVal

/-- The empty cache directory (no `.pickle` files). -/
def emptyCache : Cache := fun _ _ => none

/-- Writing the cache file for key `(c, b)` with payload `v`
(`pickle.dump(v, f)` into `{c}_{b}.pickle`). -/
def cacheWrite (cache : Cache) (c b : String) (v : PyVal) : Cache :=
  fun c2 b2 => if c2 = c ∧ b2 = b then some v else cache c2 b2

/-- Removing the cache file for key `(c, b)` (`cache.unlink()`). -/
def cacheUnlink (cache : Cache) (c b : String) : Cache :=
  fun c2 b2 => if c2 = c ∧ b2 = b then none else cache c2 b2

/-- What the benchmark module's entry point does when executed inside the
child process: either `module.run()` returns a value, or an exception is
raised somewhere in the `try` block of `collector.collect` (import failure,
missing `run`, or a raise inside the entry point). -/
inductive ExecOutcome where
  | returns (v : PyVal)
  | raises
  deriving DecidableEq, Repr

/-- Behaviour oracles for the external world: per-commit success of
`git worktree add`, and per-(commit, benchmark) behaviour of the benchmark
entry point in the child process. -/
structure Env where
  snapOk : String → Bool
  exec : String → String → ExecOutcome

/-- Observable orchestrator side effects, in order of occurrence. -/
inductive Event where
  | snapshotAcquire (c : String)
  | spawn (c b : String)
  | snapshotDestroy (c : String)
  | prune (c : String)
  deriving DecidableEq, Repr

/-- Error raised by `collector.collect` when the storage file already
exists (`RuntimeError("Benchmark storage already existing!")`). -/
inductive CollectError where
  | storageExists
  deriving DecidableEq, Repr

/-- `collector.collect`, run in the child process for one benchmark: the
`try` block runs the entry point; a raised exception is caught and printed
(no write); on success, if the storage file already exists the child raises
`RuntimeError` (no write), otherwise the result is pickled into the cache. -/
def collect (cache : Cache) (c b : String) (out : ExecOutcome) :
    Cache × Option CollectError :=
  match out with
  | .raises => (cache, none)
  | .returns v =>
      if (cache c b).isSome then (cache, some CollectError.storageExists)
      else (cacheWrite cache c b v, none)

/-- The orchestrator's view of one `subprocess.Popen` of `collector.py`:
output is streamed and the exit status ignored, so only the cache effect of
the child remains (a child crash never propagates to the orchestrator). -/
def childRun (env : Env) (c b : String) (cache : Cache) : Cache :=
  (collect cache c b (env.exec c b)).1

/-- The `for benchmark in benchmarks:` subprocess loop of `Benchmarker.run`
(lines 234-252, non-install path): one child process per requested
benchmark, in order. -/
def benchLoop (env : Env) (c : String) : List String → Cache → Cache
  | [], cache => cache
  | b :: rest, cache => benchLoop env c rest (childRun env c b cache)

/-- The post-run reconciliation loop of `Benchmarker.run` (lines 255-262):
every requested cache file for this commit that still does not exist is
filled with a pickled `None` failure marker. -/
def fillFailures (c : String) : List String → Cache → Cache
  | [], cache => cache
  | b :: rest, cache =>
      fillFailures c rest
        (if (cache c b).isSome then cache else cacheWrite cache c b PyVal.pyNone)

/-- The `clear_cache` branch of `Benchmarker.run` (lines 144-149): unlink
every cache file of this commit's requested keys that exists in the
pre-computed `existing_caches` set (`orig` is the directory state at the
time the set was computed). -/
def clearStep (c : String) (orig : Cache) : List String → Cache → Cache
  | [], cache => cache
  | b :: rest, cache =>
      clearStep c orig rest
        (if (orig c b).isSome then cacheUnlink cache c b else cache)

/-- `existing_caches == set(caches.values())`: every requested cache file
for this commit exists. -/
def allCached (cache : Cache) (c : String) (bs : List String) : Bool :=
  bs.all fun b => (cache c b).isSome

/-- Result of processing: the final cache directory, the trace of
orchestrator side effects, and whether an uncaught exception aborted the
run (`git worktree add` failing propagates out of `Benchmarker.run`). -/
structure StepResult where
  cache : Cache
  events : List Event
  aborted : Bool

/-- One iteration of the commit loop of `Benchmarker.run` (lines 134-265)
for commit `c`, non-install path: optional cache clearing, the
whole-revision cache-skip check, `git worktree add` into a temporary
directory, one subprocess per requested benchmark, failure-marker
reconciliation, temporary-directory removal and `git worktree prune`. -/
def processCommit (env : Env) (bs : List String) (clear : Bool) (c : String)
    (cache : Cache) : StepResult :=
  let cache1 := if clear then clearStep c cache bs cache else cache
  if allCached cache1 c bs then
    { cache := cache1, events := [], aborted := false }
  else if env.snapOk c then
    { cache := fillFailures c bs (benchLoop env c bs cache1),
      events := Event.snapshotAcquire c ::
        (bs.map (Event.spawn c) ++ [Event.snapshotDestroy c, Event.prune c]),
      aborted := false }
  else
    { cache := cache1, events := [], aborted := true }

/-- The commit loop of `Benchmarker.run`: commits are processed newest
first, strictly sequentially; an uncaught exception (failed worktree add)
stops the loop, leaving later commits unprocessed. -/
def runBench (env : Env) (commits : List String) (bs : List String)
    (clear : Bool) (cache : Cache) : StepResult :=
  match commits with
  | [] => { cache := cache, events := [], aborted := false }
  | c :: rest =>
      let r := processCommit env bs clear c cache
      if r.aborted then r
      else
        let r2 := runBench env rest bs clear r.cache
        { cache := r2.cache, events := r.events ++ r2.events, aborted := r2.aborted }

/-- Benchmark selection in `Benchmarker.run` (lines 111-117): requested
benchmarks not found among the available ones are dropped (preserving the
requested order); with no explicit request, all available benchmarks run. -/
def selectBenchmarks (available : List String) (requested : Option (List String)) :
    List String :=
  match requested with
  | none => available
  | some req => req.filter fun b => available.contains b

/-- Top-level outcome of constructing a `Benchmarker` and calling `run`:
configuration errors abort before any commit is processed. -/
inductive RunOutcome where
  | notADirectory
  | noBenchmarksFound
  | noneSelected
  | ran (r : StepResult)

/-- `Benchmarker.__init__` plus the configuration phase of
`Benchmarker.run`: a missing repository path or benchmark directory raises
`NotADirectoryError`; an empty benchmark directory or an empty selection
returns before the commit loop; otherwise the commit loop runs. -/
def benchmarkThis (repoIsDir benchDirIsDir : Bool) (available : List String)
    (requested : Option (List String)) (env : Env) (commits : List String)
    (clear : Bool) (cache : Cache) : RunOutcome :=
  if !repoIsDir then RunOutcome.notADirectory
  else if !benchDirIsDir then RunOutcome.notADirectory
  else if available.isEmpty then RunOutcome.noBenchmarksFound
  else
    let bs := selectBenchmarks available requested
    if bs.isEmpty then RunOutcome.noneSelected
    else RunOutcome.ran (runBench env commits bs clear cache)

/-! ## Series assembly (`Benchmarker.dataframes`, lines 72-96, and the
`bm_data` collection loop, lines 270-285) -/

/-- The `bm_data[benchmark]` dictionary built at the end of
`Benchmarker.run` (lines 272-285): for each commit, in processing order,
the unpickled cache content when the cache file exists (missing files are
skipped with a message). -/
def collectBmData (cache : Cache) (commits : List String) (b : String) :
    List (String × PyVal) :=
  commits.filterMap fun c => (cache c b).map fun v => (c, v)

/-- The dataframe built for one benchmark in `Benchmarker.dataframes`:
`pd.DataFrame(data, columns=self.commits)` gives one column per requested
commit with `NaN` where the dictionary has no entry; the transpose makes
commits the index; `df[::-1]` reverses so the oldest commit comes first. -/
def dataframeFor (cache : Cache) (commits : List String) (b : String) :
    List (String × Option PyVal) :=
  (commits.map fun c => (c, (collectBmData cache commits b).lookup c)).reverse

/-- `Benchmarker.dataframes`: one dataframe per benchmark key of
`bm_data`, i.e. per selected benchmark. -/
def dataframes (cache : Cache) (commits bs : List String) :
    List (String × List (String × Option PyVal)) :=
  bs.map fun b => (b, dataframeFor cache commits b)

/-! ## Snapshot filesystem (non-install path, lines 226-235) -/

/-- A revision snapshot's directory tree, split into the `benchmarks/`
subfolder and the rest of the checked-out repository tree.  Directory
contents are modelled as association lists from file stem to file
content. -/
structure SnapshotFS where
  repoTree : List (String × String)
  benchFolder : List (String × String)
  deriving DecidableEq, Repr

/-- `shutil.rmtree(snapshot_benchmark_folder)`: the snapshot's own
historical `benchmarks/` folder is deleted. -/
def rmtreeBench (snap : SnapshotFS) : SnapshotFS :=
  { snap with benchFolder := [] }

/-- `shutil.copytree(self.benchmark_dir, snapshot_benchmark_folder)`: the
current benchmark directory is copied into the snapshot. -/
def copytreeBench (snap : SnapshotFS) (src : List (String × String)) : SnapshotFS :=
  { snap with benchFolder := snap.benchFolder ++ src }

/-- Lines 228-231 of `Benchmarker.run`: remove the snapshot's benchmark
folder, then copy the current one in its place. -/
def replaceBenchmarkFolder (snap : SnapshotFS) (current : List (String × String)) :
    SnapshotFS :=
  copytreeBench (rmtreeBench snap) current

/-- The script executed for benchmark `b` in the non-install path: the
subprocess argument is `snapshot_benchmark_folder / f"{benchmark}.py"`, a
file of the snapshot's (replaced) benchmark folder. -/
def executedScript (snap : SnapshotFS) (b : String) : Option String :=
  snap.benchFolder.lookup b

/-! ## Auxiliary notions and concrete scenarios used in the theorems -/

/-- Two cache directories that agree everywhere except at key `(c, b)`,
where the first holds a pickled `None` and the second has no file yet. -/
def DivergeAt (c b : String) (ca cb : Cache) : Prop :=
  (∀ c2 b2, ¬(c2 = c ∧ b2 = b) → ca c2 b2 = cb c2 b2) ∧
    ca c b = some PyVal.pyNone ∧ cb c b = none

/-- Caches that are either equal or diverge exactly at `(c, b)`. -/
def EqOrDiv (c b : String) (ca cb : Cache) : Prop :=
  ca = cb ∨ DivergeAt c b ca cb

/-- A world where every checkout succeeds and every benchmark returns `1`. -/
def envRunsOk : Env :=
  { snapOk := fun _ => true
    exec := fun _ _ => ExecOutcome.returns (PyVal.pyInt 1) }

/-- A world where the checkout of commit `r1` fails (e.g. the revision is
not resolvable) and every benchmark returns `1`. -/
def envSnapFail : Env :=
  { snapOk := fun c => c != "r1"
    exec := fun _ _ => ExecOutcome.returns (PyVal.pyInt 1) }

/-- A world where the entry point of benchmark `speed` raises at commit
`r1` and every other benchmark run returns `1`. -/
def envRaisesAt : Env :=
  { snapOk := fun _ => true
    exec := fun c b =>
      if c = "r1" ∧ b = "speed" then ExecOutcome.raises
      else ExecOutcome.returns (PyVal.pyInt 1) }

/-- Like `envRaisesAt`, except that the entry point of `speed` at `r1`
returns `None` successfully instead of raising. -/
def envNoneAt : Env :=
  { snapOk := fun _ => true
    exec := fun c b =>
      if c = "r1" ∧ b = "speed" then ExecOutcome.returns PyVal.pyNone
      else ExecOutcome.returns (PyVal.pyInt 1) }

/-! ## Basic cache-file lemmas -/

theorem cacheWrite_self (cache : Cache) (c b : String) (v : PyVal) :
    cacheWrite cache c b v c b = some v := by
  simp [cacheWrite]

theorem cacheWrite_ne (cache : Cache) (c b : String) (v : PyVal) (c2 b2 : String)
    (h : ¬(c2 = c ∧ b2 = b)) : cacheWrite cache c b v c2 b2 = cache c2 b2 := by
  simp [cacheWrite, h]

theorem cacheUnlink_self (cache : Cache) (c b : String) :
    cacheUnlink cache c b c b = none := by
  simp [cacheUnlink]

theorem cacheUnlink_ne (cache : Cache) (c b c2 b2 : String)
    (h : ¬(c2 = c ∧ b2 = b)) : cacheUnlink cache c b c2 b2 = cache c2 b2 := by
  simp [cacheUnlink, h]

/-! ## The child process (`collector.collect`) -/

theorem childRun_ne (env : Env) (c b c2 b2 : String) (cache : Cache)
    (h : ¬(c2 = c ∧ b2 = b)) : childRun env c b cache c2 b2 = cache c2 b2 := by
  cases hx : env.exec c b with
  | raises => simp [childRun, collect, hx]
  | returns v =>
      by_cases hs : (cache c b).isSome
      · simp [childRun, collect, hx, hs]
      · simp [childRun, collect, hx, hs, cacheWrite_ne cache c b v c2 b2 h]

theorem childRun_some (env : Env) (c b c2 b2 : String) (cache : Cache) (v : PyVal)
    (h : cache c2 b2 = some v) : childRun env c b cache c2 b2 = some v := by
  by_cases hk : c2 = c ∧ b2 = b
  · obtain ⟨rfl, rfl⟩ := hk
    cases hx : env.exec c2 b2 with
    | raises => simp [childRun, collect, hx, h]
    | returns w =>
        have hs : (cache c2 b2).isSome := by simp [h]
        simp [childRun, collect, hx, hs, h]
  · rw [childRun_ne env c b c2 b2 cache hk, h]

theorem childRun_congr (env1 env2 : Env) (c2 b2 : String) (cache : Cache)
    (h : env1.exec c2 b2 = env2.exec c2 b2) :
    childRun env1 c2 b2 cache = childRun env2 c2 b2 cache := by
  unfold childRun
  rw [h]

/-! ## The subprocess loop -/

theorem benchLoop_ne (env : Env) (c c2 b2 : String) (bs : List String) (cache : Cache)
    (h : c2 ≠ c ∨ ¬ b2 ∈ bs) : benchLoop env c bs cache c2 b2 = cache c2 b2 := by
  induction bs generalizing cache with
  | nil => rfl
  | cons b rest ih =>
      have hkey : ¬(c2 = c ∧ b2 = b) := by
        rcases h with h | h
        · exact fun hx => h hx.1
        · exact fun hx => h (by rw [hx.2]; exact List.mem_cons_self b rest)
      have hrest : c2 ≠ c ∨ ¬ b2 ∈ rest := by
        rcases h with h | h
        · exact Or.inl h
        · exact Or.inr fun hx => h (List.mem_cons_of_mem b hx)
      rw [benchLoop, ih _ hrest, childRun_ne env c b c2 b2 cache hkey]

theorem benchLoop_some (env : Env) (c c2 b2 : String) (bs : List String) (cache : Cache)
    (v : PyVal) (h : cache c2 b2 = some v) :
    benchLoop env c bs cache c2 b2 = some v := by
  induction bs generalizing cache with
  | nil => exact h
  | cons b rest ih =>
      rw [benchLoop]
      exact ih _ (childRun_some env c b c2 b2 cache v h)

theorem benchLoop_congr (env1 env2 : Env) (c2 : String) (bs : List String)
    (h : ∀ b2 ∈ bs, env1.exec c2 b2 = env2.exec c2 b2) (cache : Cache) :
    benchLoop env1 c2 bs cache = benchLoop env2 c2 bs cache := by
  induction bs generalizing cache with
  | nil => rfl
  | cons b rest ih =>
      rw [benchLoop, benchLoop,
        childRun_congr env1 env2 c2 b cache (h b (List.mem_cons_self b rest))]
      exact ih (fun x hx => h x (List.mem_cons_of_mem b hx)) _

theorem benchLoop_raises (env : Env) (c b : String) (bs : List String) (cache : Cache)
    (h : env.exec c b = ExecOutcome.raises) :
    benchLoop env c bs cache c b = cache c b := by
  induction bs generalizing cache with
  | nil => rfl
  | cons b2 rest ih =>
      rw [benchLoop, ih]
      by_cases hb2 : b2 = b
      · subst hb2
        simp [childRun, collect, h]
      · exact childRun_ne env c b2 c b cache fun hx => hb2 hx.2.symm

/-! ## The failure-marker reconciliation loop -/

theorem fillFailures_ne (c c2 b2 : String) (bs : List String) (cache : Cache)
    (h : c2 ≠ c ∨ ¬ b2 ∈ bs) : fillFailures c bs cache c2 b2 = cache c2 b2 := by
  induction bs generalizing cache with
  | nil => rfl
  | cons b rest ih =>
      have hkey : ¬(c2 = c ∧ b2 = b) := by
        rcases h with h | h
        · exact fun hx => h hx.1
        · exact fun hx => h (by rw [hx.2]; exact List.mem_cons_self b rest)
      have hrest : c2 ≠ c ∨ ¬ b2 ∈ rest := by
        rcases h with h | h
        · exact Or.inl h
        · exact Or.inr fun hx => h (List.mem_cons_of_mem b hx)
      rw [fillFailures, ih _ hrest]
      by_cases hs : (cache c b).isSome
      · rw [if_pos hs]
      · rw [if_neg hs, cacheWrite_ne cache c b PyVal.pyNone c2 b2 hkey]

theorem fillFailures_some (c c2 b2 : String) (bs : List String) (cache : Cache)
    (v : PyVal) (h : cache c2 b2 = some v) :
    fillFailures c bs cache c2 b2 = some v := by
  induction bs generalizing cache with
  | nil => exact h
  | cons b rest ih =>
      rw [fillFailures]
      apply ih
      by_cases hs : (cache c b).isSome
      · rw [if_pos hs]; exact h
      · rw [if_neg hs]
        by_cases hk : c2 = c ∧ b2 = b
        · obtain ⟨rfl, rfl⟩ := hk
          rw [h] at hs
          exact absurd rfl hs
        · rw [cacheWrite_ne cache c b PyVal.pyNone c2 b2 hk]; exact h

theorem fillFailures_isSome (c b : String) (bs : List String) (cache : Cache)
    (hb : b ∈ bs) : ((fillFailures c bs cache) c b).isSome = true := by
  induction bs generalizing cache with
  | nil => cases hb
  | cons b2 rest ih =>
      rw [fillFailures]
      by_cases hbb : b = b2
      · subst hbb
        have hsome : ∃ v, (if (cache c b).isSome then cache
            else cacheWrite cache c b PyVal.pyNone) c b = some v := by
          by_cases hs : (cache c b).isSome
          · rw [if_pos hs]
            exact Option.isSome_iff_exists.mp hs
          · rw [if_neg hs]
            exact ⟨PyVal.pyNone, cacheWrite_self cache c b PyVal.pyNone⟩
        obtain ⟨v, hv⟩ := hsome
        rw [fillFailures_some c c b rest _ v hv]
        rfl
      · have hbr : b ∈ rest := by
          rcases List.mem_cons.mp hb with h | h
          · exact absurd h hbb
          · exact h
        exact ih _ hbr

theorem fillFailures_marker (c b : String) (bs : List String) (cache : Cache)
    (hb : b ∈ bs) (h : cache c b = none) :
    fillFailures c bs cache c b = some PyVal.pyNone := by
  induction bs generalizing cache with
  | nil => cases hb
  | cons b2 rest ih =>
      rw [fillFailures]
      by_cases hbb : b2 = b
      · subst hbb
        have hs : ¬ (cache c b2).isSome = true := by simp [h]
        rw [if_neg hs]
        exact fillFailures_some c c b2 rest _ PyVal.pyNone
          (cacheWrite_self cache c b2 PyVal.pyNone)
      · have hbr : b ∈ rest := by
          rcases List.mem_cons.mp hb with hx | hx
          · exact absurd hx.symm hbb
          · exact hx
        by_cases hs : (cache c b2).isSome
        · rw [if_pos hs]
          exact ih _ hbr h
        · rw [if_neg hs]
          apply ih _ hbr
          rw [cacheWrite_ne cache c b2 PyVal.pyNone c b fun hx => hbb hx.2.symm]
          exact h

/-! ## The cache-clearing loop -/

theorem clearStep_ne (c c2 b2 : String) (orig : Cache) (bs : List String) (cache : Cache)
    (h : c2 ≠ c ∨ ¬ b2 ∈ bs) : clearStep c orig bs cache c2 b2 = cache c2 b2 := by
  induction bs generalizing cache with
  | nil => rfl
  | cons b rest ih =>
      have hkey : ¬(c2 = c ∧ b2 = b) := by
        rcases h with h | h
        · exact fun hx => h hx.1
        · exact fun hx => h (by rw [hx.2]; exact List.mem_cons_self b rest)
      have hrest : c2 ≠ c ∨ ¬ b2 ∈ rest := by
        rcases h with h | h
        · exact Or.inl h
        · exact Or.inr fun hx => h (List.mem_cons_of_mem b hx)
      rw [clearStep, ih _ hrest]
      by_cases hs : (orig c b).isSome
      · rw [if_pos hs, cacheUnlink_ne cache c b c2 b2 hkey]
      · rw [if_neg hs]

/-! ## Per-commit orchestration lemmas -/

theorem processCommit_skip (env : Env) (bs : List String) (c : String) (cache : Cache)
    (h : allCached cache c bs = true) :
    processCommit env bs false c cache = ⟨cache, [], false⟩ := by
  simp [processCommit, h]

theorem processCommit_run (env : Env) (bs : List String) (c : String) (cache : Cache)
    (h1 : allCached cache c bs = false) (h2 : env.snapOk c = true) :
    processCommit env bs false c cache =
      ⟨fillFailures c bs (benchLoop env c bs cache),
        Event.snapshotAcquire c ::
          (bs.map (Event.spawn c) ++ [Event.snapshotDestroy c, Event.prune c]),
        false⟩ := by
  simp [processCommit, h1, h2]

theorem processCommit_not_aborted (env : Env) (bs : List String) (clear : Bool)
    (c : String) (cache : Cache) (h : env.snapOk c = true) :
    (processCommit env bs clear c cache).aborted = false := by
  by_cases h1 : allCached (if clear then clearStep c cache bs cache else cache) c bs
  · simp [processCommit, h1]
  · simp [processCommit, h1, h]

theorem processCommit_other (env : Env) (bs : List String) (clear : Bool)
    (c : String) (cache : Cache) (c2 b2 : String) (h : c2 ≠ c ∨ ¬ b2 ∈ bs) :
    (processCommit env bs clear c cache).cache c2 b2 = cache c2 b2 := by
  have hclear : (if clear then clearStep c cache bs cache else cache) c2 b2
      = cache c2 b2 := by
    cases clear with
    | false => rfl
    | true => exact clearStep_ne c c2 b2 cache bs cache h
  by_cases h1 : allCached (if clear then clearStep c cache bs cache else cache) c bs
  · simp only [processCommit, h1, if_pos]
    exact hclear
  · by_cases h2 : env.snapOk c
    · simp only [processCommit, h1, h2, if_pos, if_neg, Bool.false_eq_true,
        not_false_iff]
      rw [fillFailures_ne c c2 b2 bs _ h, benchLoop_ne env c c2 b2 bs _ h]
      exact hclear
    · have h2f : env.snapOk c = false := by simpa using h2
      have h1f : allCached (if clear then clearStep c cache bs cache else cache) c bs
          = false := by simpa using h1
      simp [processCommit, h1f, h2f]
      exact hclear

theorem processCommit_some (env : Env) (bs : List String) (c : String) (cache : Cache)
    (c2 b2 : String) (v : PyVal) (h : cache c2 b2 = some v) :
    (processCommit env bs false c cache).cache c2 b2 = some v := by
  by_cases h1 : allCached cache c bs
  · rw [processCommit_skip env bs c cache h1]
    exact h
  · by_cases h2 : env.snapOk c
    · rw [processCommit_run env bs c cache (by simpa using h1) h2]
      exact fillFailures_some c c2 b2 bs _ v (benchLoop_some env c c2 b2 bs cache v h)
    · have h2f : env.snapOk c = false := by simpa using h2
      have h1f : allCached cache c bs = false := by simpa using h1
      simp [processCommit, h1f, h2f]
      exact h

theorem processCommit_complete (env : Env) (bs : List String) (c : String)
    (cache : Cache) (b : String) (hs : env.snapOk c = true) (hb : b ∈ bs) :
    (((processCommit env bs false c cache).cache) c b).isSome = true := by
  by_cases h1 : allCached cache c bs
  · rw [processCommit_skip env bs c cache h1]
    exact (List.all_eq_true.mp h1) b hb
  · rw [processCommit_run env bs c cache (by simpa using h1) hs]
    exact fillFailures_isSome c b bs _ hb

theorem processCommit_raises (env : Env) (bs : List String) (c b : String)
    (cache : Cache) (hs : env.snapOk c = true) (hb : b ∈ bs)
    (hexec : env.exec c b = ExecOutcome.raises)
    (hP : cache c b = none ∨ cache c b = some PyVal.pyNone) :
    (processCommit env bs false c cache).cache c b = some PyVal.pyNone := by
  by_cases h1 : allCached cache c bs
  · rw [processCommit_skip env bs c cache h1]
    rcases hP with h | h
    · have := (List.all_eq_true.mp h1) b hb
      rw [h] at this
      cases this
    · exact h
  · rw [processCommit_run env bs c cache (by simpa using h1) hs]
    have hbl := benchLoop_raises env c b bs cache hexec
    rcases hP with h | h
    · exact fillFailures_marker c b bs _ hb (hbl.trans h)
    · exact fillFailures_some c c b bs _ PyVal.pyNone (hbl.trans h)

/-! ## Run-level lemmas -/

theorem runBench_nil (env : Env) (bs : List String) (clear : Bool) (cache : Cache) :
    runBench env [] bs clear cache = ⟨cache, [], false⟩ := rfl

theorem runBench_cons_ok (env : Env) (c : String) (rest bs : List String)
    (clear : Bool) (cache : Cache)
    (h : (processCommit env bs clear c cache).aborted = false) :
    runBench env (c :: rest) bs clear cache =
      ⟨(runBench env rest bs clear (processCommit env bs clear c cache).cache).cache,
        (processCommit env bs clear c cache).events ++
          (runBench env rest bs clear (processCommit env bs clear c cache).cache).events,
        (runBench env rest bs clear (processCommit env bs clear c cache).cache).aborted⟩ := by
  simp [runBench, h]

theorem runBench_cons_aborted (env : Env) (c : String) (rest bs : List String)
    (clear : Bool) (cache : Cache)
    (h : (processCommit env bs clear c cache).aborted = true) :
    runBench env (c :: rest) bs clear cache = processCommit env bs clear c cache := by
  simp [runBench, h]

theorem runBench_not_aborted (env : Env) (commits bs : List String) (clear : Bool)
    (cache : Cache) (hsnap : ∀ c ∈ commits, env.snapOk c = true) :
    (runBench env commits bs clear cache).aborted = false := by
  induction commits generalizing cache with
  | nil => rfl
  | cons c rest ih =>
      have h0 : (processCommit env bs clear c cache).aborted = false :=
        processCommit_not_aborted env bs clear c cache
          (hsnap c (List.mem_cons_self c rest))
      rw [runBench_cons_ok env c rest bs clear cache h0]
      exact ih _ fun c2 hc2 => hsnap c2 (List.mem_cons_of_mem c hc2)

theorem runBench_some (env : Env) (commits bs : List String) (cache : Cache)
    (c2 b2 : String) (v : PyVal) (h : cache c2 b2 = some v) :
    (runBench env commits bs false cache).cache c2 b2 = some v := by
  induction commits generalizing cache with
  | nil => exact h
  | cons c rest ih =>
      have hstep := processCommit_some env bs c cache c2 b2 v h
      by_cases ha : (processCommit env bs false c cache).aborted = true
      · rw [runBench_cons_aborted env c rest bs false cache ha]
        exact hstep
      · rw [runBench_cons_ok env c rest bs false cache (by simpa using ha)]
        exact ih _ hstep

theorem runBench_outside (env : Env) (commits bs : List String) (clear : Bool)
    (cache : Cache) (c2 b2 : String) (h : ¬ c2 ∈ commits ∨ ¬ b2 ∈ bs) :
    (runBench env commits bs clear cache).cache c2 b2 = cache c2 b2 := by
  induction commits generalizing cache with
  | nil => rfl
  | cons c rest ih =>
      have hhead : c2 ≠ c ∨ ¬ b2 ∈ bs := by
        rcases h with h | h
        · exact Or.inl fun hx => h (by rw [hx]; exact List.mem_cons_self c rest)
        · exact Or.inr h
      have hrest : ¬ c2 ∈ rest ∨ ¬ b2 ∈ bs := by
        rcases h with h | h
        · exact Or.inl fun hx => h (List.mem_cons_of_mem c hx)
        · exact Or.inr h
      have hstep := processCommit_other env bs clear c cache c2 b2 hhead
      by_cases ha : (processCommit env bs clear c cache).aborted = true
      · rw [runBench_cons_aborted env c rest bs clear cache ha]
        exact hstep
      · rw [runBench_cons_ok env c rest bs clear cache (by simpa using ha)]
        rw [ih _ hrest, hstep]

theorem runBench_complete (env : Env) (commits bs : List String) (cache : Cache)
    (c b : String) (hsnap : ∀ c2 ∈ commits, env.snapOk c2 = true)
    (hc : c ∈ commits) (hb : b ∈ bs) :
    ((runBench env commits bs false cache).cache c b).isSome = true := by
  induction commits generalizing cache with
  | nil => cases hc
  | cons c0 rest ih =>
      have h0 : env.snapOk c0 = true := hsnap c0 (List.mem_cons_self c0 rest)
      have ha : (processCommit env bs false c0 cache).aborted = false :=
        processCommit_not_aborted env bs false c0 cache h0
      rw [runBench_cons_ok env c0 rest bs false cache ha]
      rcases List.mem_cons.mp hc with rfl | hc2
      · have hsome := processCommit_complete env bs c cache b h0 hb
        obtain ⟨v, hv⟩ := Option.isSome_iff_exists.mp hsome
        have := runBench_some env rest bs _ c b v hv
        simp [this]
      · exact ih _ (fun c2 h2 => hsnap c2 (List.mem_cons_of_mem c0 h2)) hc2

theorem runBench_cached (env : Env) (commits bs : List String) (cache : Cache)
    (h : ∀ c ∈ commits, allCached cache c bs = true) :
    runBench env commits bs false cache = ⟨cache, [], false⟩ := by
  induction commits with
  | nil => rfl
  | cons c rest ih =>
      have h0 := processCommit_skip env bs c cache (h c (List.mem_cons_self c rest))
      have hrest := ih fun c2 hc2 => h c2 (List.mem_cons_of_mem c hc2)
      simp [runBench, h0, hrest]

theorem runBench_raises (env : Env) (commits bs : List String) (c b : String)
    (cache : Cache) (hsnap : ∀ c2 ∈ commits, env.snapOk c2 = true)
    (hc : c ∈ commits) (hb : b ∈ bs)
    (hexec : env.exec c b = ExecOutcome.raises)
    (hP : cache c b = none ∨ cache c b = some PyVal.pyNone) :
    (runBench env commits bs false cache).cache c b = some PyVal.pyNone := by
  induction commits generalizing cache with
  | nil => cases hc
  | cons c0 rest ih =>
      have h0 : env.snapOk c0 = true := hsnap c0 (List.mem_cons_self c0 rest)
      have ha : (processCommit env bs false c0 cache).aborted = false :=
        processCommit_not_aborted env bs false c0 cache h0
      rw [runBench_cons_ok env c0 rest bs false cache ha]
      rcases List.mem_cons.mp hc with rfl | hc2
      · have hm := processCommit_raises env bs c b cache h0 hb hexec hP
        exact runBench_some env rest bs _ c b PyVal.pyNone hm
      · apply ih _ (fun c2 h2 => hsnap c2 (List.mem_cons_of_mem c0 h2)) hc2
        by_cases hcc : c0 = c
        · subst hcc
          exact Or.inr (processCommit_raises env bs c0 b cache h0 hb hexec hP)
        · have hpres := processCommit_other env bs false c0 cache c b
            (Or.inl fun hx => hcc hx.symm)
          rw [hpres]
          exact hP

/-! ## Indistinguishability of a successful `None` result and a failure -/

theorem childRun_div (env1 env2 : Env) (c b : String)
    (hagree : ∀ c2 b2, ¬(c2 = c ∧ b2 = b) → env1.exec c2 b2 = env2.exec c2 b2)
    (h1 : env1.exec c b = ExecOutcome.returns PyVal.pyNone)
    (h2 : env2.exec c b = ExecOutcome.raises)
    (b2 : String) (ca cb : Cache) (hd : EqOrDiv c b ca cb) :
    EqOrDiv c b (childRun env1 c b2 ca) (childRun env2 c b2 cb) := by
  rcases hd with rfl | ⟨hoff, hka, hkb⟩
  · by_cases hbb : b2 = b
    · subst hbb
      by_cases hs : (ca c b2).isSome
      · left
        simp [childRun, collect, h1, h2, hs]
      · right
        have hnone : ca c b2 = none := Option.not_isSome_iff_eq_none.mp hs
        refine ⟨?_, ?_, ?_⟩
        · intro c3 b3 hk
          simp [childRun, collect, h1, h2, hs,
            cacheWrite_ne ca c b2 PyVal.pyNone c3 b3 hk]
        · simp [childRun, collect, h1, h2, hs, cacheWrite_self]
        · simp [childRun, collect, h2, hnone]
    · left
      exact childRun_congr env1 env2 c b2 ca
        (hagree c b2 fun hx => hbb hx.2)
  · by_cases hbb : b2 = b
    · subst hbb
      right
      have hs : (ca c b2).isSome := by simp [hka]
      refine ⟨?_, ?_, ?_⟩
      · intro c3 b3 hk
        rw [show childRun env1 c b2 ca = ca by simp [childRun, collect, h1, hs]]
        rw [show childRun env2 c b2 cb = cb by simp [childRun, collect, h2]]
        exact hoff c3 b3 hk
      · rw [show childRun env1 c b2 ca = ca by simp [childRun, collect, h1, hs]]
        exact hka
      · rw [show childRun env2 c b2 cb = cb by simp [childRun, collect, h2]]
        exact hkb
    · have hkne : ¬(c = c ∧ b2 = b) := fun hx => hbb hx.2
      have hx := hagree c b2 hkne
      cases ho : env2.exec c b2 with
      | raises =>
          right
          rw [show childRun env1 c b2 ca = ca by
            simp [childRun, collect, hx, ho]]
          rw [show childRun env2 c b2 cb = cb by simp [childRun, collect, ho]]
          exact ⟨hoff, hka, hkb⟩
      | returns v =>
          have heq : ca c b2 = cb c b2 := hoff c b2 hkne
          by_cases hs : (ca c b2).isSome
          · right
            rw [show childRun env1 c b2 ca = ca by
              simp [childRun, collect, hx, ho, hs]]
            rw [show childRun env2 c b2 cb = cb by
              simp [childRun, collect, ho, heq ▸ hs]]
            exact ⟨hoff, hka, hkb⟩
          · right
            have hs2 : ¬ (cb c b2).isSome = true := by rw [← heq]; exact hs
            rw [show childRun env1 c b2 ca = cacheWrite ca c b2 v by
              simp [childRun, collect, hx, ho, hs]]
            rw [show childRun env2 c b2 cb = cacheWrite cb c b2 v by
              simp [childRun, collect, ho, hs2]]
            refine ⟨?_, ?_, ?_⟩
            · intro c3 b3 hk
              by_cases hkk : c3 = c ∧ b3 = b2
              · obtain ⟨rfl, rfl⟩ := hkk
                rw [cacheWrite_self, cacheWrite_self]
              · rw [cacheWrite_ne ca c b2 v c3 b3 hkk,
                  cacheWrite_ne cb c b2 v c3 b3 hkk]
                exact hoff c3 b3 hk
            · rw [cacheWrite_ne ca c b2 v c b fun hk2 => hbb hk2.2.symm]
              exact hka
            · rw [cacheWrite_ne cb c b2 v c b fun hk2 => hbb hk2.2.symm]
              exact hkb

theorem benchLoop_div (env1 env2 : Env) (c b : String)
    (hagree : ∀ c2 b2, ¬(c2 = c ∧ b2 = b) → env1.exec c2 b2 = env2.exec c2 b2)
    (h1 : env1.exec c b = ExecOutcome.returns PyVal.pyNone)
    (h2 : env2.exec c b = ExecOutcome.raises)
    (bs : List String) (ca cb : Cache) (hd : EqOrDiv c b ca cb) :
    EqOrDiv c b (benchLoop env1 c bs ca) (benchLoop env2 c bs cb) := by
  induction bs generalizing ca cb with
  | nil => exact hd
  | cons b2 rest ih =>
      rw [benchLoop, benchLoop]
      exact ih _ _ (childRun_div env1 env2 c b hagree h1 h2 b2 ca cb hd)

theorem fillFailures_div (c b : String) (bs : List String) (ca cb : Cache)
    (hd : DivergeAt c b ca cb) (hb : b ∈ bs) :
    fillFailures c bs ca = fillFailures c bs cb := by
  induction bs generalizing ca cb with
  | nil => cases hb
  | cons b2 rest ih =>
      obtain ⟨hoff, hka, hkb⟩ := hd
      rw [fillFailures, fillFailures]
      by_cases hbb : b2 = b
      · subst hbb
        rw [if_pos (by simp [hka]), if_neg (by simp [hkb])]
        have hcaches : ca = cacheWrite cb c b2 PyVal.pyNone := by
          funext c3 b3
          by_cases hkk : c3 = c ∧ b3 = b2
          · obtain ⟨rfl, rfl⟩ := hkk
            rw [cacheWrite_self, hka]
          · rw [cacheWrite_ne cb c b2 PyVal.pyNone c3 b3 hkk]
            exact hoff c3 b3 hkk
        rw [hcaches]
      · have hbr : b ∈ rest := by
          rcases List.mem_cons.mp hb with hx | hx
          · exact absurd hx.symm hbb
          · exact hx
        have heq : ca c b2 = cb c b2 := hoff c b2 fun hx => hbb hx.2
        by_cases hs : (ca c b2).isSome
        · rw [if_pos hs, if_pos (heq ▸ hs)]
          exact ih _ _ ⟨hoff, hka, hkb⟩ hbr
        · rw [if_neg hs, if_neg (by rw [← heq]; exact hs)]
          apply ih _ _ ?_ hbr
          refine ⟨?_, ?_, ?_⟩
          · intro c3 b3 hk
            by_cases hkk : c3 = c ∧ b3 = b2
            · obtain ⟨rfl, rfl⟩ := hkk
              rw [cacheWrite_self, cacheWrite_self]
            · rw [cacheWrite_ne ca c b2 PyVal.pyNone c3 b3 hkk,
                cacheWrite_ne cb c b2 PyVal.pyNone c3 b3 hkk]
              exact hoff c3 b3 hk
          · rw [cacheWrite_ne ca c b2 PyVal.pyNone c b fun hk2 => hbb hk2.2.symm]
            exact hka
          · rw [cacheWrite_ne cb c b2 PyVal.pyNone c b fun hk2 => hbb hk2.2.symm]
            exact hkb

theorem processCommit_congr (env1 env2 : Env) (c b : String)
    (hsnap : env1.snapOk = env2.snapOk)
    (hagree : ∀ c2 b2, ¬(c2 = c ∧ b2 = b) → env1.exec c2 b2 = env2.exec c2 b2)
    (h1 : env1.exec c b = ExecOutcome.returns PyVal.pyNone)
    (h2 : env2.exec c b = ExecOutcome.raises)
    (c2 : String) (bs : List String) (clear : Bool) (cache : Cache) :
    processCommit env1 bs clear c2 cache = processCommit env2 bs clear c2 cache := by
  have hloops : fillFailures c2 bs
        (benchLoop env1 c2 bs (if clear then clearStep c2 cache bs cache else cache)) =
      fillFailures c2 bs
        (benchLoop env2 c2 bs (if clear then clearStep c2 cache bs cache else cache)) := by
    set cache1 := if clear then clearStep c2 cache bs cache else cache with hc1
    by_cases hcc : c2 = c
    · subst hcc
      by_cases hbb : b ∈ bs
      · rcases benchLoop_div env1 env2 c2 b hagree h1 h2 bs cache1 cache1
            (Or.inl rfl) with heq | hdiv
        · rw [heq]
        · exact fillFailures_div c2 b bs _ _ hdiv hbb
      · rw [benchLoop_congr env1 env2 c2 bs
          (fun b2 hb2 => hagree c2 b2 fun hx => hbb (by rw [← hx.2]; exact hb2)) cache1]
    · rw [benchLoop_congr env1 env2 c2 bs
        (fun b2 hb2 => hagree c2 b2 fun hx => hcc hx.1) cache1]
  by_cases hall : allCached (if clear then clearStep c2 cache bs cache else cache) c2 bs
  · simp [processCommit, hall]
  · by_cases hsn : env1.snapOk c2 = true
    · have hsn2 : env2.snapOk c2 = true := by rw [← hsnap]; exact hsn
      simp [processCommit, hall, hsn, hsn2, hloops]
    · have hsnf : env1.snapOk c2 = false := by simpa using hsn
      have hsn2 : env2.snapOk c2 = false := by rw [← hsnap]; exact hsnf
      simp [processCommit, hall, hsnf, hsn2]

theorem runBench_congr (env1 env2 : Env) (c b : String)
    (hsnap : env1.snapOk = env2.snapOk)
    (hagree : ∀ c2 b2, ¬(c2 = c ∧ b2 = b) → env1.exec c2 b2 = env2.exec c2 b2)
    (h1 : env1.exec c b = ExecOutcome.returns PyVal.pyNone)
    (h2 : env2.exec c b = ExecOutcome.raises)
    (commits bs : List String) (clear : Bool) (cache : Cache) :
    runBench env1 commits bs clear cache = runBench env2 commits bs clear cache := by
  induction commits generalizing cache with
  | nil => rfl
  | cons c0 rest ih =>
      rw [runBench, runBench,
        processCommit_congr env1 env2 c b hsnap hagree h1 h2 c0 bs clear cache, ih]

/-! ## Series-assembly lemmas -/

theorem collectBmData_cons_none (cache : Cache) (c0 : String) (rest : List String)
    (b : String) (h : cache c0 b = none) :
    collectBmData cache (c0 :: rest) b = collectBmData cache rest b := by
  simp [collectBmData, List.filterMap_cons, h]

theorem collectBmData_cons_some (cache : Cache) (c0 : String) (rest : List String)
    (b : String) (v : PyVal) (h : cache c0 b = some v) :
    collectBmData cache (c0 :: rest) b = (c0, v) :: collectBmData cache rest b := by
  simp [collectBmData, List.filterMap_cons, h]

theorem collectBmData_lookup_of_not_mem (cache : Cache) (commits : List String)
    (b c : String) (h : ¬ c ∈ commits) :
    (collectBmData cache commits b).lookup c = none := by
  induction commits with
  | nil => rfl
  | cons c0 rest ih =>
      have hne : c ≠ c0 := fun hx => h (by rw [hx]; exact List.mem_cons_self c0 rest)
      have hrest : ¬ c ∈ rest := fun hx => h (List.mem_cons_of_mem c0 hx)
      cases hv : cache c0 b with
      | none =>
          rw [collectBmData_cons_none cache c0 rest b hv]
          exact ih hrest
      | some v =>
          rw [collectBmData_cons_some cache c0 rest b v hv, List.lookup_cons]
          simp only [beq_false_of_ne hne, Bool.false_eq_true, if_false]
          exact ih hrest

theorem collectBmData_lookup (cache : Cache) (commits : List String) (b c : String)
    (hnd : commits.Nodup) (hc : c ∈ commits) :
    (collectBmData cache commits b).lookup c = cache c b := by
  induction commits with
  | nil => cases hc
  | cons c0 rest ih =>
      have hnd2 := List.nodup_cons.mp hnd
      by_cases hcc : c = c0
      · subst hcc
        cases hv : cache c b with
        | none =>
            rw [collectBmData_cons_none cache c rest b hv]
            exact collectBmData_lookup_of_not_mem cache rest b c hnd2.1
        | some v =>
            rw [collectBmData_cons_some cache c rest b v hv, List.lookup_cons]
            simp
      · have hcr : c ∈ rest := by
          rcases List.mem_cons.mp hc with hx | hx
          · exact absurd hx hcc
          · exact hx
        cases hv : cache c0 b with
        | none =>
            rw [collectBmData_cons_none cache c0 rest b hv]
            exact ih hnd2.2 hcr
        | some v =>
            rw [collectBmData_cons_some cache c0 rest b v hv, List.lookup_cons]
            simp only [beq_false_of_ne hcc, Bool.false_eq_true, if_false]
            exact ih hnd2.2 hcr

theorem dataframeFor_eq (cache : Cache) (commits : List String) (b : String)
    (hnd : commits.Nodup) :
    dataframeFor cache commits b = commits.reverse.map fun c => (c, cache c b) := by
  unfold dataframeFor
  have hmap : (commits.map fun c => (c, (collectBmData cache commits b).lookup c))
      = commits.map fun c => (c, cache c b) :=
    List.map_congr_left fun c hc => by
      show (c, (collectBmData cache commits b).lookup c) = (c, cache c b)
      rw [collectBmData_lookup cache commits b c hnd hc]
  rw [hmap, List.map_reverse]

/-! ## Claim theorems -/

/-- Claim C1, counterexample: with benchmark `alpha` already cached for
commit `r1` but `beta` not cached, the orchestrator still spawns a
subprocess for the already-cached `alpha` (the per-benchmark skip claimed
by the spec does not exist; only the whole-revision skip does). -/
theorem cached_benchmark_still_spawned :
    ((cacheWrite emptyCache "r1" "alpha" (PyVal.pyInt 1)) "r1" "alpha").isSome = true ∧
    Event.spawn "r1" "alpha" ∈
      (runBench envRunsOk ["r1"] ["alpha", "beta"] false
        (cacheWrite emptyCache "r1" "alpha" (PyVal.pyInt 1))).events := by
  exact ⟨by decide, by decide⟩

/-- Claim C1, amended: the cache skip is whole-revision granular: when every
requested benchmark of a revision is cached, the revision is skipped before
snapshot acquisition (no snapshot, no subprocess, cache untouched);
otherwise a subprocess is spawned for every requested benchmark, including
the already-cached ones, whose cached entries are nevertheless preserved. -/
theorem revision_level_cache_skip (env : Env) (bs : List String) (c : String)
    (cache : Cache) :
    (allCached cache c bs = true →
      processCommit env bs false c cache = ⟨cache, [], false⟩) ∧
    (allCached cache c bs = false → env.snapOk c = true →
      (processCommit env bs false c cache).events =
        Event.snapshotAcquire c ::
          (bs.map (Event.spawn c) ++ [Event.snapshotDestroy c, Event.prune c]) ∧
      ∀ b v, cache c b = some v →
        (processCommit env bs false c cache).cache c b = some v) := by
  constructor
  · exact processCommit_skip env bs c cache
  · intro h1 h2
    constructor
    · rw [processCommit_run env bs c cache h1 h2]
    · intro b v hv
      exact processCommit_some env bs c cache c b v hv

/-- Witness for `revision_level_cache_skip` at concrete inputs: a fully
cached revision is skipped; a partially cached one spawns both benchmarks
and preserves the cached value. -/
theorem revision_level_cache_skip_witness :
    (allCached (cacheWrite emptyCache "r1" "alpha" (PyVal.pyInt 1)) "r1" ["alpha"] = true ∧
      processCommit envRunsOk ["alpha"] false "r1"
          (cacheWrite emptyCache "r1" "alpha" (PyVal.pyInt 1))
        = ⟨cacheWrite emptyCache "r1" "alpha" (PyVal.pyInt 1), [], false⟩) ∧
    (allCached (cacheWrite emptyCache "r1" "alpha" (PyVal.pyInt 1)) "r1"
        ["alpha", "beta"] = false ∧
      ((processCommit envRunsOk ["alpha", "beta"] false "r1"
          (cacheWrite emptyCache "r1" "alpha" (PyVal.pyInt 1))).events =
        Event.snapshotAcquire "r1" ::
          (["alpha", "beta"].map (Event.spawn "r1") ++
            [Event.snapshotDestroy "r1", Event.prune "r1"]) ∧
      ∀ b v, (cacheWrite emptyCache "r1" "alpha" (PyVal.pyInt 1)) "r1" b = some v →
        (processCommit envRunsOk ["alpha", "beta"] false "r1"
          (cacheWrite emptyCache "r1" "alpha" (PyVal.pyInt 1))).cache "r1" b = some v)) :=
  ⟨⟨by decide,
    (revision_level_cache_skip envRunsOk ["alpha"] "r1"
      (cacheWrite emptyCache "r1" "alpha" (PyVal.pyInt 1))).1 (by decide)⟩,
   ⟨by decide,
    (revision_level_cache_skip envRunsOk ["alpha", "beta"] "r1"
      (cacheWrite emptyCache "r1" "alpha" (PyVal.pyInt 1))).2 (by decide) (by decide)⟩⟩

/-- Claim C2: writing a cache entry for a key that already has one fails
with an error (`RuntimeError` in `collector.collect`) and leaves the cache
unchanged; clearing the entry first makes a subsequent write for the same
key succeed. -/
theorem cache_write_once (cache : Cache) (c b : String) (v : PyVal)
    (h : (cache c b).isSome = true) :
    collect cache c b (ExecOutcome.returns v)
      = (cache, some CollectError.storageExists) ∧
    (collect (cacheUnlink cache c b) c b (ExecOutcome.returns v)).1 c b = some v ∧
    (collect (cacheUnlink cache c b) c b (ExecOutcome.returns v)).2 = none := by
  have hu : ¬ ((cacheUnlink cache c b) c b).isSome = true := by
    rw [cacheUnlink_self]
    simp
  refine ⟨by simp [collect, h], ?_, ?_⟩
  · simp only [collect, if_neg hu]
    exact cacheWrite_self (cacheUnlink cache c b) c b v
  · simp only [collect, if_neg hu]

/-- Witness for `cache_write_once` at a concrete pre-existing entry. -/
theorem cache_write_once_witness :
    ((cacheWrite emptyCache "r1" "speed" (PyVal.pyInt 7)) "r1" "speed").isSome = true ∧
    (collect (cacheWrite emptyCache "r1" "speed" (PyVal.pyInt 7)) "r1" "speed"
        (ExecOutcome.returns (PyVal.pyInt 3))
      = (cacheWrite emptyCache "r1" "speed" (PyVal.pyInt 7),
          some CollectError.storageExists) ∧
    (collect (cacheUnlink (cacheWrite emptyCache "r1" "speed" (PyVal.pyInt 7))
        "r1" "speed") "r1" "speed" (ExecOutcome.returns (PyVal.pyInt 3))).1
        "r1" "speed" = some (PyVal.pyInt 3) ∧
    (collect (cacheUnlink (cacheWrite emptyCache "r1" "speed" (PyVal.pyInt 7))
        "r1" "speed") "r1" "speed" (ExecOutcome.returns (PyVal.pyInt 3))).2 = none) :=
  ⟨by decide,
   cache_write_once (cacheWrite emptyCache "r1" "speed" (PyVal.pyInt 7)) "r1" "speed"
     (PyVal.pyInt 3) (by decide)⟩

/-- Claim C3: a full run over N commits and M selected benchmarks starting
from an empty cache aborts nowhere, produces a cache entry for exactly the
N×M requested (revision, benchmark) keys, and within each revision's
processing every requested key of that revision is filled (with a result or
a failure marker) before the revision's processing ends. -/
theorem run_completeness (env : Env) (commits bs : List String)
    (hsnap : ∀ c ∈ commits, env.snapOk c = true)
    (hcn : commits.Nodup) (hbn : bs.Nodup) :
    (runBench env commits bs false emptyCache).aborted = false ∧
    (∀ c b, ((runBench env commits bs false emptyCache).cache c b).isSome = true ↔
      (c ∈ commits ∧ b ∈ bs)) ∧
    (commits.toFinset ×ˢ bs.toFinset).card = commits.length * bs.length ∧
    (∀ c ∈ commits, ∀ cache2 : Cache, ∀ b ∈ bs,
      ((processCommit env bs false c cache2).cache c b).isSome = true) := by
  refine ⟨runBench_not_aborted env commits bs false emptyCache hsnap, ?_, ?_, ?_⟩
  · intro c b
    constructor
    · intro h
      by_contra hcon
      have hout : ¬ c ∈ commits ∨ ¬ b ∈ bs := by
        by_cases hc : c ∈ commits
        · exact Or.inr fun hb => hcon ⟨hc, hb⟩
        · exact Or.inl hc
      rw [runBench_outside env commits bs false emptyCache c b hout] at h
      simp [emptyCache] at h
    · intro hm
      exact runBench_complete env commits bs emptyCache c b hsnap hm.1 hm.2
  · rw [Finset.card_product, List.toFinset_card_of_nodup hcn,
      List.toFinset_card_of_nodup hbn]
  · intro c hc cache2 b hb
    exact processCommit_complete env bs c cache2 b (hsnap c hc) hb

/-- Witness for `run_completeness`: two commits, two benchmarks, 2×2
entries. -/
theorem run_completeness_witness :
    ((∀ c ∈ ["r2", "r1"], envRunsOk.snapOk c = true) ∧
      List.Nodup ["r2", "r1"] ∧ List.Nodup ["speed", "accuracy"]) ∧
    ((runBench envRunsOk ["r2", "r1"] ["speed", "accuracy"] false
        emptyCache).aborted = false ∧
      (∀ c b, ((runBench envRunsOk ["r2", "r1"] ["speed", "accuracy"] false
          emptyCache).cache c b).isSome = true ↔
        (c ∈ ["r2", "r1"] ∧ b ∈ ["speed", "accuracy"])) ∧
      (List.toFinset ["r2", "r1"] ×ˢ List.toFinset ["speed", "accuracy"]).card
        = 2 * 2 ∧
      (∀ c ∈ ["r2", "r1"], ∀ cache2 : Cache, ∀ b ∈ ["speed", "accuracy"],
        ((processCommit envRunsOk ["speed", "accuracy"] false c
          cache2).cache c b).isSome = true)) :=
  ⟨⟨by decide, by decide, by decide⟩,
   run_completeness envRunsOk ["r2", "r1"] ["speed", "accuracy"]
     (by decide) (by decide) (by decide)⟩

/-- Claim C4: re-running the commit loop over the same commits and
benchmark selection without clearing performs zero side effects (no
snapshot, no subprocess spawn: the event list is empty) and returns the
cache of the first run unchanged. -/
theorem run_idempotent (env : Env) (commits bs : List String)
    (hsnap : ∀ c ∈ commits, env.snapOk c = true) :
    runBench env commits bs false (runBench env commits bs false emptyCache).cache
      = ⟨(runBench env commits bs false emptyCache).cache, [], false⟩ := by
  apply runBench_cached
  intro c hc
  refine List.all_eq_true.mpr fun b hb => ?_
  exact runBench_complete env commits bs emptyCache c b hsnap hc hb

/-- Witness for `run_idempotent` at concrete inputs. -/
theorem run_idempotent_witness :
    (∀ c ∈ ["r2", "r1"], envRunsOk.snapOk c = true) ∧
    runBench envRunsOk ["r2", "r1"] ["speed"] false
        (runBench envRunsOk ["r2", "r1"] ["speed"] false emptyCache).cache
      = ⟨(runBench envRunsOk ["r2", "r1"] ["speed"] false emptyCache).cache,
          [], false⟩ :=
  ⟨by decide, run_idempotent envRunsOk ["r2", "r1"] ["speed"] (by decide)⟩

/-- Claim C5: a benchmark whose entry point raises in the child process
yields a persisted failure marker (pickled `None`) for exactly that
(revision, benchmark) key, the run is not aborted by the exception, and all
other requested keys of the same and of all other revisions are still
processed (every requested key ends up cached). -/
theorem benchmark_failure_contained (env : Env) (commits bs : List String)
    (c b : String) (hsnap : ∀ c2 ∈ commits, env.snapOk c2 = true)
    (hc : c ∈ commits) (hb : b ∈ bs)
    (hraises : env.exec c b = ExecOutcome.raises) :
    (runBench env commits bs false emptyCache).aborted = false ∧
    (runBench env commits bs false emptyCache).cache c b = some PyVal.pyNone ∧
    (∀ c2 ∈ commits, ∀ b2 ∈ bs,
      ((runBench env commits bs false emptyCache).cache c2 b2).isSome = true) := by
  refine ⟨runBench_not_aborted env commits bs false emptyCache hsnap, ?_, ?_⟩
  · exact runBench_raises env commits bs c b emptyCache hsnap hc hb hraises
      (Or.inl rfl)
  · intro c2 hc2 b2 hb2
    exact runBench_complete env commits bs emptyCache c2 b2 hsnap hc2 hb2

/-- Witness for `benchmark_failure_contained`: `speed` raises at `r1`; the
other three keys are still produced and `(r1, speed)` holds a marker. -/
theorem benchmark_failure_contained_witness :
    ((∀ c2 ∈ ["r2", "r1"], envRaisesAt.snapOk c2 = true) ∧
      "r1" ∈ ["r2", "r1"] ∧ "speed" ∈ ["speed", "accuracy"] ∧
      envRaisesAt.exec "r1" "speed" = ExecOutcome.raises) ∧
    ((runBench envRaisesAt ["r2", "r1"] ["speed", "accuracy"] false
        emptyCache).aborted = false ∧
      (runBench envRaisesAt ["r2", "r1"] ["speed", "accuracy"] false
        emptyCache).cache "r1" "speed" = some PyVal.pyNone ∧
      (∀ c2 ∈ ["r2", "r1"], ∀ b2 ∈ ["speed", "accuracy"],
        ((runBench envRaisesAt ["r2", "r1"] ["speed", "accuracy"] false
          emptyCache).cache c2 b2).isSome = true)) :=
  ⟨⟨by decide, by decide, by decide, by decide⟩,
   benchmark_failure_contained envRaisesAt ["r2", "r1"] ["speed", "accuracy"]
     "r1" "speed" (by decide) (by decide) (by decide) (by decide)⟩

/-- Claim C6, counterexample: when the checkout of commit `r1` fails, the
run aborts immediately: no event is produced at all and the later commit
`r2` is never processed, contradicting the claim that a snapshot failure
only skips the failing revision. -/
theorem snapshot_failure_aborts_run :
    envSnapFail.snapOk "r1" = false ∧
    (runBench envSnapFail ["r1", "r2"] ["speed"] false emptyCache).aborted = true ∧
    (runBench envSnapFail ["r1", "r2"] ["speed"] false emptyCache).events = [] :=
  ⟨by decide, by decide, by decide⟩

/-- Claim C6, amended: configuration errors (invalid repository or benchmark
directory, no benchmarks found, empty selection) abort before any revision
is processed, but a snapshot (checkout) failure is fatal to the whole run:
the commit loop stops at the failing revision (which is not processed:
there are no events) and subsequent revisions are not processed either. -/
theorem config_error_and_snapshot_failure (env : Env) (bs : List String)
    (clear : Bool) (c : String) (rest : List String) (cache : Cache)
    (hsn : env.snapOk c = false)
    (hnc : allCached (if clear then clearStep c cache bs cache else cache) c bs
      = false) :
    runBench env (c :: rest) bs clear cache = processCommit env bs clear c cache ∧
    (runBench env (c :: rest) bs clear cache).aborted = true ∧
    (runBench env (c :: rest) bs clear cache).events = [] ∧
    (∀ (rid : Bool) (avail : List String) (req : Option (List String))
        (env2 : Env) (commits2 : List String) (clear2 : Bool) (cache2 : Cache)
        (a : String) (avail2 : List String),
      benchmarkThis false rid avail req env2 commits2 clear2 cache2
        = RunOutcome.notADirectory ∧
      benchmarkThis rid false avail req env2 commits2 clear2 cache2
        = RunOutcome.notADirectory ∧
      benchmarkThis true true [] req env2 commits2 clear2 cache2
        = RunOutcome.noBenchmarksFound ∧
      benchmarkThis true true (a :: avail2) (some []) env2 commits2 clear2 cache2
        = RunOutcome.noneSelected) := by
  have habort : processCommit env bs clear c cache =
      ⟨if clear then clearStep c cache bs cache else cache, [], true⟩ := by
    simp [processCommit, hnc, hsn]
  have hrun := runBench_cons_aborted env c rest bs clear cache (by rw [habort])
  refine ⟨hrun, by rw [hrun, habort], by rw [hrun, habort], ?_⟩
  intro rid avail req env2 commits2 clear2 cache2 a avail2
  refine ⟨by simp [benchmarkThis], ?_, by simp [benchmarkThis], ?_⟩
  · cases rid <;> simp [benchmarkThis]
  · simp [benchmarkThis, selectBenchmarks]

/-- Witness for `config_error_and_snapshot_failure` at a failing checkout
of `r1` with `r2` still pending. -/
theorem config_error_and_snapshot_failure_witness :
    (envSnapFail.snapOk "r1" = false ∧
      allCached (if false then clearStep "r1" emptyCache ["speed"] emptyCache
        else emptyCache) "r1" ["speed"] = false) ∧
    (runBench envSnapFail ["r1", "r2"] ["speed"] false emptyCache
        = processCommit envSnapFail ["speed"] false "r1" emptyCache ∧
      (runBench envSnapFail ["r1", "r2"] ["speed"] false emptyCache).aborted = true ∧
      (runBench envSnapFail ["r1", "r2"] ["speed"] false emptyCache).events = [] ∧
      (∀ (rid : Bool) (avail : List String) (req : Option (List String))
          (env2 : Env) (commits2 : List String) (clear2 : Bool) (cache2 : Cache)
          (a : String) (avail2 : List String),
        benchmarkThis false rid avail req env2 commits2 clear2 cache2
          = RunOutcome.notADirectory ∧
        benchmarkThis rid false avail req env2 commits2 clear2 cache2
          = RunOutcome.notADirectory ∧
        benchmarkThis true true [] req env2 commits2 clear2 cache2
          = RunOutcome.noBenchmarksFound ∧
        benchmarkThis true true (a :: avail2) (some []) env2 commits2 clear2 cache2
          = RunOutcome.noneSelected)) :=
  ⟨⟨by decide, by decide⟩,
   config_error_and_snapshot_failure envSnapFail ["speed"] false "r1" ["r2"]
     emptyCache (by decide) (by decide)⟩

/-- Claim C7: whenever a snapshot was acquired for a revision, that
revision's event trace ends with the snapshot's destruction followed by the
worktree prune — on every path, whatever the benchmark outcomes — and in
the commit loop a revision's events all precede the next revision's. -/
theorem teardown_always_runs (env : Env) (bs : List String) (clear : Bool)
    (c : String) (cache : Cache)
    (h : Event.snapshotAcquire c ∈ (processCommit env bs clear c cache).events) :
    List.IsSuffix [Event.snapshotDestroy c, Event.prune c]
      (processCommit env bs clear c cache).events ∧
    ∀ rest : List String,
      (processCommit env bs clear c cache).aborted = false →
      (runBench env (c :: rest) bs clear cache).events =
        (processCommit env bs clear c cache).events ++
          (runBench env rest bs clear (processCommit env bs clear c cache).cache).events := by
  constructor
  · by_cases h1 : allCached (if clear then clearStep c cache bs cache else cache) c bs
    · exfalso
      revert h
      simp [processCommit, h1]
    · by_cases h2 : env.snapOk c = true
      · refine ⟨Event.snapshotAcquire c :: bs.map (Event.spawn c), ?_⟩
        simp [processCommit, h1, h2]
      · exfalso
        revert h
        have h2f : env.snapOk c = false := by simpa using h2
        simp [processCommit, h1, h2f]
  · intro rest hab
    rw [runBench_cons_ok env c rest bs clear cache hab]

/-- Witness for `teardown_always_runs` at a concrete acquired snapshot. -/
theorem teardown_always_runs_witness :
    Event.snapshotAcquire "r1"
      ∈ (processCommit envRunsOk ["speed"] false "r1" emptyCache).events ∧
    (List.IsSuffix [Event.snapshotDestroy "r1", Event.prune "r1"]
      (processCommit envRunsOk ["speed"] false "r1" emptyCache).events ∧
    ∀ rest : List String,
      (processCommit envRunsOk ["speed"] false "r1" emptyCache).aborted = false →
      (runBench envRunsOk ("r1" :: rest) ["speed"] false emptyCache).events =
        (processCommit envRunsOk ["speed"] false "r1" emptyCache).events ++
          (runBench envRunsOk rest ["speed"] false
            (processCommit envRunsOk ["speed"] false "r1" emptyCache).cache).events) :=
  ⟨by decide,
   teardown_always_runs envRunsOk ["speed"] false "r1" emptyCache (by decide)⟩

/-- Claim C8: the assembled output has exactly one series per selected
benchmark, each indexed by the requested revisions oldest first (the
reverse of the newest-first processing order), with `none` — the missing
placeholder (`NaN` in the dataframe) — exactly at revisions whose cache
entry is absent. -/
theorem series_oldest_first (cache : Cache) (commits bs : List String)
    (hnd : commits.Nodup) :
    (dataframes cache commits bs).map Prod.fst = bs ∧
    ∀ b ∈ bs, dataframeFor cache commits b
      = commits.reverse.map fun c => (c, cache c b) := by
  constructor
  · simp only [dataframes, List.map_map]
    exact List.map_id' bs
  · intro b _
    exact dataframeFor_eq cache commits b hnd

/-- Witness for `series_oldest_first`: one cached and one missing revision
for the single benchmark `speed`; the series runs oldest first with a
placeholder for the missing entry. -/
theorem series_oldest_first_witness :
    List.Nodup ["r2", "r1"] ∧
    ((dataframes (cacheWrite emptyCache "r1" "speed" (PyVal.pyInt 3))
        ["r2", "r1"] ["speed"]).map Prod.fst = ["speed"] ∧
      ∀ b ∈ ["speed"],
        dataframeFor (cacheWrite emptyCache "r1" "speed" (PyVal.pyInt 3))
            ["r2", "r1"] b
          = ["r2", "r1"].reverse.map fun c =>
              (c, (cacheWrite emptyCache "r1" "speed" (PyVal.pyInt 3)) c b)) :=
  ⟨by decide,
   series_oldest_first (cacheWrite emptyCache "r1" "speed" (PyVal.pyInt 3))
     ["r2", "r1"] ["speed"] (by decide)⟩

/-- Claim C9: in the non-install path the snapshot's own benchmarks
directory is removed and replaced by a copy of the current benchmark
directory, so the executed benchmark script is always the current one,
independent of the snapshot (hence of the revision). -/
theorem benchmarks_run_latest (snap snap2 : SnapshotFS)
    (current : List (String × String)) (b : String) :
    executedScript (replaceBenchmarkFolder snap current) b = current.lookup b ∧
    executedScript (replaceBenchmarkFolder snap current) b
      = executedScript (replaceBenchmarkFolder snap2 current) b := by
  constructor <;>
    simp [executedScript, replaceBenchmarkFolder, copytreeBench, rmtreeBench]

/-- Claim C10: a failure marker is a pickled `None`, so a benchmark whose
entry point successfully returns `None` is indistinguishable from a failing
one: the whole run result (final cache directory, event trace, abort flag)
and the assembled series are identical in the two worlds. -/
theorem none_result_indistinguishable (env1 env2 : Env) (c b : String)
    (hsnap : env1.snapOk = env2.snapOk)
    (hagree : ∀ c2 b2, ¬(c2 = c ∧ b2 = b) → env1.exec c2 b2 = env2.exec c2 b2)
    (h1 : env1.exec c b = ExecOutcome.returns PyVal.pyNone)
    (h2 : env2.exec c b = ExecOutcome.raises)
    (commits bs : List String) (clear : Bool) (cache : Cache) :
    runBench env1 commits bs clear cache = runBench env2 commits bs clear cache ∧
    dataframes (runBench env1 commits bs clear cache).cache commits bs
      = dataframes (runBench env2 commits bs clear cache).cache commits bs := by
  have h := runBench_congr env1 env2 c b hsnap hagree h1 h2 commits bs clear cache
  exact ⟨h, by rw [h]⟩

/-- Witness for `none_result_indistinguishable`: `speed` returning `None`
at `r1` versus `speed` raising at `r1`, over two commits and two
benchmarks. -/
theorem none_result_indistinguishable_witness :
    (envNoneAt.snapOk = envRaisesAt.snapOk ∧
      (∀ c2 b2, ¬(c2 = "r1" ∧ b2 = "speed") →
        envNoneAt.exec c2 b2 = envRaisesAt.exec c2 b2) ∧
      envNoneAt.exec "r1" "speed" = ExecOutcome.returns PyVal.pyNone ∧
      envRaisesAt.exec "r1" "speed" = ExecOutcome.raises) ∧
    (runBench envNoneAt ["r2", "r1"] ["speed", "accuracy"] false emptyCache
      = runBench envRaisesAt ["r2", "r1"] ["speed", "accuracy"] false emptyCache ∧
    dataframes (runBench envNoneAt ["r2", "r1"] ["speed", "accuracy"] false
        emptyCache).cache ["r2", "r1"] ["speed", "accuracy"]
      = dataframes (runBench envRaisesAt ["r2", "r1"] ["speed", "accuracy"] false
        emptyCache).cache ["r2", "r1"] ["speed", "accuracy"]) :=
  ⟨⟨rfl,
    fun c2 b2 h => by simp [envNoneAt, envRaisesAt, h],
    by decide, by decide⟩,
   none_result_indistinguishable envNoneAt envRaisesAt "r1" "speed" rfl
     (fun c2 b2 h => by simp [envNoneAt, envRaisesAt, h])
     (by decide) (by decide) ["r2", "r1"] ["speed", "accuracy"] false emptyCache⟩
